import Mathlib

/-!
Verification of the dungeon element-visibility walker
(src/lib/features/dungeon/Dungeon.js) of the bpmn-js dungeon skin.

The walker operates over the diagram model maintained by the external
diagram engine: a registry of elements (shapes, labels, the root) and
connections, each with a graphics node whose display attribute encodes
visibility.  We embed that model shallowly:

  * an element carries its registry id, its element type tag (the tag is
    the string label for label shapes), the metamodel type of its business
    object, the type tag of its parent, and its bounds;
  * a connection carries its id and the ids of its source and target
    elements; the incoming/outgoing lists the engine maintains on each
    element are recovered by filtering the connection list on the
    target/source id, which is exactly the wiring invariant the engine
    guarantees;
  * the graphics state is a map from ids to a display flag; an id has a
    graphics node precisely when it is registered (the engine creates the
    node on registration), so getGraphics succeeds exactly on registered
    ids;
  * console logging and the zoomScroll camera collaborator are traced in
    the state, so reset/scroll ordering and log messages are observable;
  * a JavaScript TypeError (dereferencing an undefined lookup result) is
    modelled by returning none.
-/

/-- Metamodel/tag types occurring in the walker.  The same enumeration
serves as the element type tag (where the extra value label marks label
shapes) and as the business-object type queried by the classifier. -/
inductive BpmnT where
  | StartEvent
  | EndEvent
  | Task
  | CallActivity
  | ExclusiveGateway
  | ParallelGateway
  | Gateway
  | SubProcess
  | Process
  | SequenceFlow
  | label
  | Generic
deriving DecidableEq, Repr

/-- Modelled from the spec: the element classifier is exported by
lib/util/ModelUtil.js, repository code outside the extracted sources.
Per the spec it matches the declared metamodel type against a queried
type name, including the supertype relationships of the external
metamodel (Gateway is a supertype of the concrete gateway kinds), has no
side effects, and answers false rather than failing on a missing
element (the missing case is handled at each call site below). -/
def bpmnIsA (t query : BpmnT) : Bool :=
  decide (t = query) ||
    match t, query with
    | .ExclusiveGateway, .Gateway => true
    | .ParallelGateway, .Gateway => true
    | _, _ => false

/-- A connection of the diagram model: a directed edge.  The source and
target object references of the engine are embedded as the ids of the
referenced elements. -/
structure Connection where
  id : String
  source : String
  target : String
deriving DecidableEq, Repr

/-- An element (shape, label or root) of the diagram model. -/
structure Element where
  id : String
  type : BpmnT
  bo : BpmnT
  parentType : Option BpmnT
  x : Int
  y : Int
  width : Int
  height : Int
deriving DecidableEq, Repr

/-- The diagram: the contents of the element registry, split into its
element entries and its connection entries. -/
structure Diagram where
  elements : List Element
  connections : List Connection
deriving DecidableEq, Repr

/-- Registry lookup of an element entry by id (elementRegistry.get on a
shape id). -/
def getElement (d : Diagram) (id : String) : Option Element :=
  d.elements.find? (fun e => decide (e.id = id))

/-- Registry lookup of a connection entry by id. -/
def getConnection (d : Diagram) (id : String) : Option Connection :=
  d.connections.find? (fun c => decide (c.id = id))

/-- An id is registered when some registry entry carries it; the engine
creates a graphics node for every registered entry, so
elementRegistry.getGraphics succeeds exactly on registered ids. -/
def registered (d : Diagram) (id : String) : Bool :=
  (getElement d id).isSome || (getConnection d id).isSome

/-- The incoming list the engine maintains on an element: the connections
whose target is that element. -/
def incoming (d : Diagram) (e : Element) : List Connection :=
  d.connections.filter (fun c => decide (c.target = e.id))

/-- The outgoing list the engine maintains on an element: the connections
whose source is that element. -/
def outgoing (d : Diagram) (e : Element) : List Connection :=
  d.connections.filter (fun c => decide (c.source = e.id))

/-- Modelled from the spec: one operation of the zoomScroll camera
collaborator, an external service with reset() and scroll({dx, dy}). -/
inductive CamOp where
  | reset
  | scroll (dx dy : Int)
deriving DecidableEq, Repr

/-- The mutable state the walker touches: the display flag of every
graphics node, the console log, and the trace of camera operations. -/
structure St where
  vis : String → Bool
  log : List String
  cam : List CamOp

/-- Point update of a display map. -/
def vset (v : String → Bool) (id : String) (b : Bool) : String → Bool :=
  fun j => if j = id then b else v j

/-- show(elementId): looks up the graphics; when it exists, sets the
display attribute to inline; otherwise it silently does nothing (the
lookup result is guarded).  Named showEl because show is a Lean
keyword. -/
def showEl (d : Diagram) (s : St) (id : String) : St :=
  if registered d id then { s with vis := vset s.vis id true } else s

/-- hide(elementId): sets the display attribute of the graphics to none.
The lookup result is dereferenced without a guard, so a missing graphics
node raises a TypeError, modelled as none. -/
def hide (d : Diagram) (s : St) (id : String) : Option St :=
  if registered d id then some { s with vis := vset s.vis id false } else none

/-- hideAll(): filters the registry for every entry that the classifier
does not type as bpmn:Process and hides each.  The source passes the
entry object to hide, and getGraphics resolves an object through its id,
so the hide of a registered entry always finds the graphics; connection
entries carry sequence-flow business objects, which never classify as
bpmn:Process, so every connection is hidden.  The registry interleaves
element and connection entries; hiding writes a constant flag, so
folding the elements first and the connections second reaches the same
state. -/
def hideAll (d : Diagram) (s : St) : St :=
  let s1 := (d.elements.filter (fun e => !(bpmnIsA e.bo BpmnT.Process))).foldl
    (fun s e => { s with vis := vset s.vis e.id false }) s
  d.connections.foldl (fun s c => { s with vis := vset s.vis c.id false }) s1

/-- start(): hideAll, then filter the registry for the start events whose
direct parent carries the bpmn:Process type tag, and show each.  A
connection entry never classifies as bpmn:StartEvent, so the filter only
selects element entries. -/
def start (d : Diagram) (s : St) : St :=
  let s1 := hideAll d s
  (d.elements.filter
      (fun e => bpmnIsA e.bo BpmnT.StartEvent &&
        decide (e.parentType = some BpmnT.Process))).foldl
    (fun s e => showEl d s e.id) s1

/-- The console message showElements prints for a failed lookup. -/
def notFoundMsg (id : String) : String :=
  "element with id " ++ id ++ " not found!"

/-- The body of the showElements loop for one id: show it, look the
entry up; a lookup that yields nothing is logged and the walk continues
with the next id; a connection entry has no incoming list, so the
incoming guard skips it silently; for an element entry, every incoming
connection whose source id occurs in the full input list is shown.
(The incoming-truthiness test of the source compares against a fresh
empty array, which is always reference-unequal, so it never blocks.) -/
def showElementsStep (d : Diagram) (elementIds : List String) (s : St) (id : String) : St :=
  let s1 := showEl d s id
  match getElement d id with
  | some e =>
      (incoming d e).foldl
        (fun s c =>
          if elementIds.contains c.source then showEl d s c.id else s) s1
  | none =>
      match getConnection d id with
      | some _ => s1
      | none => { s1 with log := s1.log ++ [notFoundMsg id] }

/-- showElements(elementIds): fold the loop body over the ids in input
order. -/
def showElements (d : Diagram) (s : St) (elementIds : List String) : St :=
  elementIds.foldl (showElementsStep d elementIds) s

/-- The body of the showNext loop for one outgoing connection: when its
target classifies as bpmn:Gateway or bpmn:EndEvent, show the connection
and then the target. -/
def showNextStep (d : Diagram) (s : St) (c : Connection) : St :=
  match getElement d c.target with
  | some target =>
      if bpmnIsA target.bo BpmnT.Gateway || bpmnIsA target.bo BpmnT.EndEvent then
        showEl d (showEl d s c.id) target.id
      else s
  | none => s

/-- showNext(taskId): looks the entry up and iterates its outgoing list
with the loop body above.  When the lookup yields nothing, reading
outgoing from undefined raises a TypeError (none); when it yields a
connection entry, outgoing is undefined and the forEach over it iterates
nothing. -/
def showNext (d : Diagram) (s : St) (taskId : String) : Option St :=
  match getElement d taskId with
  | some e => some ((outgoing d e).foldl (showNextStep d) s)
  | none =>
      match getConnection d taskId with
      | some _ => some s
      | none => none

/-- The console message scrollTo prints when the element is found. -/
def scrollMsg (id : String) (dx dy : Int) : String :=
  "scrollTo " ++ id ++ " position: " ++ toString dx ++ "|" ++ toString dy

/-- scrollTo(elementId): looks the element up; when found, logs the
computed delta of PADDING = 75, resets the zoom and applies the scroll;
when the lookup yields nothing, the guard skips everything.  (The lookup
is embedded over the element entries: a connection entry carries no x/y
coordinates, so a connection id would produce NaN deltas in JavaScript,
outside this integer model; the claims only concern shape ids and
missing ids.) -/
def scrollTo (d : Diagram) (s : St) (elementId : String) : St :=
  match getElement d elementId with
  | some el =>
      let dx : Int := -el.x + 75
      let dy : Int := -el.y + 75
      { s with
        log := s.log ++ [scrollMsg elementId dx dy],
        cam := s.cam ++ [CamOp.reset, CamOp.scroll dx dy] }
  | none => s

/-- A decorative image attached to a graphics node by the shape.added
handler. -/
structure Icon where
  uri : String
  ix : Int
  iy : Int
  iw : Int
  ih : Int
deriving DecidableEq, Repr

/-- The children of a graphics node, for the shape.added handler: image
appends a child, and insertBefore children[0] moves the fresh child to
the front (when the node was empty the fresh child is the only one, so
the move is the identity); the net effect of the append/move pair is a
prepend. -/
def shapeAdded (e : Element) (g : List Icon) : List Icon :=
  if e.type = BpmnT.label then g
  else
    let g1 :=
      if bpmnIsA e.bo BpmnT.Task || bpmnIsA e.bo BpmnT.CallActivity then
        ⟨"resources/scroll.png", -20, -20, e.width + 40, e.height + 40⟩ :: g
      else g
    let g2 :=
      if bpmnIsA e.bo BpmnT.StartEvent && !(decide (e.type = BpmnT.label)) then
        g1 ++ [⟨"resources/green-diamond.png", 0, 0, e.width, e.height⟩]
      else g1
    let g3 :=
      if bpmnIsA e.bo BpmnT.EndEvent && !(decide (e.type = BpmnT.label)) then
        g2 ++ [⟨"resources/red-diamond.png", 0, 0, e.width, e.height⟩]
      else g2
    let g4 :=
      if bpmnIsA e.bo BpmnT.Gateway then
        g3 ++ [⟨"resources/swords.png", 0, 0, e.width + 2, e.height + 2⟩]
      else g3
    if bpmnIsA e.bo BpmnT.SubProcess then
      ⟨"resources/hell.png", 0, 0, e.width, e.height⟩ :: g4
    else g4

/-- Well-formedness of a diagram, guaranteed by the external engine: ids
are unique across the whole registry, and the endpoints of every
connection resolve to registered elements. -/
def WF (d : Diagram) : Prop :=
  ((d.elements.map Element.id) ++ (d.connections.map Connection.id)).Nodup ∧
  (∀ c ∈ d.connections, ∃ e ∈ d.elements, e.id = c.target) ∧
  (∀ c ∈ d.connections, ∃ e ∈ d.elements, e.id = c.source)

instance (d : Diagram) : Decidable (WF d) := by
  unfold WF; infer_instance

/-! ## Generic fold characterizations -/

/-- Point value of a display map after setting an id to false. -/
theorem vset_false_apply (v : String → Bool) (id j : String) :
    vset v id false j = (v j && !(decide (j = id))) := by
  unfold vset
  by_cases h : j = id <;> simp [h]

/-- Point value of a display map after setting an id to true. -/
theorem vset_true_apply (v : String → Bool) (id j : String) :
    vset v id true j = (v j || decide (j = id)) := by
  unfold vset
  by_cases h : j = id <;> simp [h]

/-- A fold whose steps can only switch display flags on has, at each id,
the disjunction of the initial flag and the per-step contributions. -/
theorem vis_foldl_or {α : Type} (f : St → α → St) (g : α → String → Bool)
    (hf : ∀ s a j, (f s a).vis j = (s.vis j || g a j)) (l : List α) (s : St) (j : String) :
    (l.foldl f s).vis j = (s.vis j || l.any (fun a => g a j)) := by
  induction l generalizing s with
  | nil => simp
  | cons a t ih => simp [List.foldl_cons, ih, hf, Bool.or_assoc]

/-- A fold whose steps can only switch display flags off has, at each id,
the conjunction of the initial flag and the per-step contributions. -/
theorem vis_foldl_and {α : Type} (f : St → α → St) (g : α → String → Bool)
    (hf : ∀ s a j, (f s a).vis j = (s.vis j && g a j)) (l : List α) (s : St) (j : String) :
    (l.foldl f s).vis j = (s.vis j && l.all (fun a => g a j)) := by
  induction l generalizing s with
  | nil => simp
  | cons a t ih => simp [List.foldl_cons, ih, hf, Bool.and_assoc]

/-! ## Registry lookup lemmas -/

theorem getElement_some {d : Diagram} {id : String} {e : Element}
    (h : getElement d id = some e) : e ∈ d.elements ∧ e.id = id := by
  unfold getElement at h
  refine ⟨List.mem_of_find?_eq_some h, ?_⟩
  have hp := List.find?_some h
  simpa using hp

theorem getConnection_some {d : Diagram} {id : String} {c : Connection}
    (h : getConnection d id = some c) : c ∈ d.connections ∧ c.id = id := by
  unfold getConnection at h
  refine ⟨List.mem_of_find?_eq_some h, ?_⟩
  have hp := List.find?_some h
  simpa using hp

theorem registered_elem {d : Diagram} {e : Element} (h : e ∈ d.elements) :
    registered d e.id = true := by
  have hs : (getElement d e.id).isSome := by
    unfold getElement
    rw [List.find?_isSome]
    exact ⟨e, h, by simp⟩
  unfold registered
  simp [hs]

theorem registered_conn {d : Diagram} {c : Connection} (h : c ∈ d.connections) :
    registered d c.id = true := by
  have hs : (getConnection d c.id).isSome := by
    unfold getConnection
    rw [List.find?_isSome]
    exact ⟨c, h, by simp⟩
  unfold registered
  simp [hs]

/-! ## Uniqueness consequences of well-formedness -/

theorem nodup_map_inj {α β : Type} {f : α → β} {l : List α} (h : (l.map f).Nodup)
    {x y : α} (hx : x ∈ l) (hy : y ∈ l) (hf : f x = f y) : x = y := by
  induction l with
  | nil => cases hx
  | cons a t ih =>
      rw [List.map_cons, List.nodup_cons] at h
      rcases List.mem_cons.mp hx with rfl | hx'
      · rcases List.mem_cons.mp hy with rfl | hy'
        · rfl
        · exact absurd (hf ▸ List.mem_map_of_mem f hy') h.1
      · rcases List.mem_cons.mp hy with rfl | hy'
        · exact absurd (hf.symm ▸ List.mem_map_of_mem f hx') h.1
        · exact ih h.2 hx' hy'

theorem WF.elem_inj {d : Diagram} (h : WF d) {e1 e2 : Element}
    (h1 : e1 ∈ d.elements) (h2 : e2 ∈ d.elements) (hid : e1.id = e2.id) : e1 = e2 :=
  nodup_map_inj (List.nodup_append.mp h.1).1 h1 h2 hid

theorem WF.conn_inj {d : Diagram} (h : WF d) {c1 c2 : Connection}
    (h1 : c1 ∈ d.connections) (h2 : c2 ∈ d.connections) (hid : c1.id = c2.id) : c1 = c2 :=
  nodup_map_inj (List.nodup_append.mp h.1).2.1 h1 h2 hid

theorem WF.elem_conn_ne {d : Diagram} (h : WF d) {e : Element} {c : Connection}
    (he : e ∈ d.elements) (hc : c ∈ d.connections) : e.id ≠ c.id := by
  intro heq
  exact (List.nodup_append.mp h.1).2.2 (List.mem_map_of_mem Element.id he)
    (heq ▸ List.mem_map_of_mem Connection.id hc)

theorem WF.getElement_of_mem {d : Diagram} (hwf : WF d) {e : Element}
    (he : e ∈ d.elements) : getElement d e.id = some e := by
  cases hfind : getElement d e.id with
  | none =>
      exfalso
      have hs : (getElement d e.id).isSome := by
        unfold getElement
        rw [List.find?_isSome]
        exact ⟨e, he, by simp⟩
      rw [hfind] at hs
      cases hs
  | some e' =>
      obtain ⟨hm, hid⟩ := getElement_some hfind
      rw [hwf.elem_inj hm he hid]

theorem WF.getConnection_of_mem {d : Diagram} (hwf : WF d) {c : Connection}
    (hc : c ∈ d.connections) : getConnection d c.id = some c := by
  cases hfind : getConnection d c.id with
  | none =>
      exfalso
      have hs : (getConnection d c.id).isSome := by
        unfold getConnection
        rw [List.find?_isSome]
        exact ⟨c, hc, by simp⟩
      rw [hfind] at hs
      cases hs
  | some c' =>
      obtain ⟨hm, hid⟩ := getConnection_some hfind
      rw [hwf.conn_inj hm hc hid]

/-! ## Characterizations of the walker operations -/

theorem showEl_vis (d : Diagram) (s : St) (id j : String) :
    (showEl d s id).vis j = (s.vis j || (decide (j = id) && registered d id)) := by
  unfold showEl
  cases hreg : registered d id with
  | false => simp [hreg]
  | true => simp [hreg, vset_true_apply]

theorem showEl_log (d : Diagram) (s : St) (id : String) :
    (showEl d s id).log = s.log := by
  unfold showEl
  split <;> rfl

theorem showEl_cam (d : Diagram) (s : St) (id : String) :
    (showEl d s id).cam = s.cam := by
  unfold showEl
  split <;> rfl

theorem hideAll_vis (d : Diagram) (s : St) (j : String) :
    (hideAll d s).vis j =
      ((s.vis j &&
        (d.elements.filter (fun e => !(bpmnIsA e.bo BpmnT.Process))).all
          (fun e => !(decide (j = e.id)))) &&
        d.connections.all (fun c => !(decide (j = c.id)))) := by
  unfold hideAll
  rw [vis_foldl_and _ (fun c j => !(decide (j = c.id)))
      (fun s a j => vset_false_apply s.vis a.id j),
    vis_foldl_and _ (fun e j => !(decide (j = e.id)))
      (fun s a j => vset_false_apply s.vis a.id j)]

/-- After hideAll, every connection of the diagram is hidden. -/
theorem hideAll_conn_hidden {d : Diagram} (s : St) {c : Connection}
    (hc : c ∈ d.connections) : (hideAll d s).vis c.id = false := by
  rw [hideAll_vis]
  have : d.connections.all (fun x => !(decide (c.id = x.id))) = false := by
    rw [List.all_eq_false]
    exact ⟨c, hc, by simp⟩
  simp [this]

/-- The filter start() applies to select the revealed start events. -/
def startFilter (d : Diagram) : List Element :=
  d.elements.filter
    (fun e => bpmnIsA e.bo BpmnT.StartEvent && decide (e.parentType = some BpmnT.Process))

theorem start_vis (d : Diagram) (s : St) (j : String) :
    (start d s).vis j =
      ((hideAll d s).vis j ||
        (startFilter d).any (fun e => decide (j = e.id) && registered d e.id)) := by
  unfold start startFilter
  exact vis_foldl_or _ _ (fun s (e : Element) j => showEl_vis d s e.id j) _ _ _

/-- The visibility contribution of one id processed by showElements: the
id itself is shown when its graphics exist, and each incoming connection
of the looked-up element whose source occurs in the input list is shown
when its graphics exist. -/
def gOut (d : Diagram) (ids : List String) (id j : String) : Bool :=
  (decide (j = id) && registered d id) ||
    (match getElement d id with
     | some e =>
         (incoming d e).any
           (fun c => ids.contains c.source && (decide (j = c.id) && registered d c.id))
     | none => false)

theorem showElementsStep_vis (d : Diagram) (ids : List String) (s : St) (id j : String) :
    (showElementsStep d ids s id).vis j = (s.vis j || gOut d ids id j) := by
  unfold showElementsStep gOut
  cases hge : getElement d id with
  | some e =>
      simp only [hge]
      rw [vis_foldl_or _
          (fun c j => ids.contains c.source && (decide (j = c.id) && registered d c.id))
          ?_ _ _ j]
      · rw [showEl_vis, Bool.or_assoc]
      · intro s a j
        cases hc : ids.contains a.source with
        | false =>
            simp only [hc]
            simp
        | true =>
            simp only [hc]
            simp [showEl_vis]
  | none =>
      cases hgc : getConnection d id with
      | some c => simp [hge, hgc, showEl_vis]
      | none => simp [hge, hgc, showEl_vis]

theorem showElements_vis (d : Diagram) (s : St) (ids : List String) (j : String) :
    (showElements d s ids).vis j = (s.vis j || ids.any (fun id => gOut d ids id j)) := by
  unfold showElements
  exact vis_foldl_or _ _ (fun s id j => showElementsStep_vis d ids s id j) ids s j

/-- showElements never hides anything. -/
theorem showElements_mono {d : Diagram} {s : St} {ids : List String} {j : String}
    (h : s.vis j = true) : (showElements d s ids).vis j = true := by
  rw [showElements_vis, h, Bool.true_or]

/-- The visibility contribution of one outgoing connection processed by
showNext. -/
def gNext (d : Diagram) (c : Connection) (j : String) : Bool :=
  match getElement d c.target with
  | some target =>
      (bpmnIsA target.bo BpmnT.Gateway || bpmnIsA target.bo BpmnT.EndEvent) &&
        ((decide (j = c.id) && registered d c.id) ||
          (decide (j = target.id) && registered d target.id))
  | none => false

theorem showNextStep_vis (d : Diagram) (s : St) (c : Connection) (j : String) :
    (showNextStep d s c).vis j = (s.vis j || gNext d c j) := by
  unfold showNextStep gNext
  cases hge : getElement d c.target with
  | some target =>
      simp only [hge]
      cases hk : (bpmnIsA target.bo BpmnT.Gateway || bpmnIsA target.bo BpmnT.EndEvent) with
      | false => simp [hk]
      | true => simp [hk, showEl_vis, Bool.or_assoc]
  | none => simp [hge]

/-- showNext on an id that resolves to an element entry: the result state
and its visibility characterization. -/
theorem showNext_elem_vis {d : Diagram} {taskId : String} {e : Element}
    (s : St) (h : getElement d taskId = some e) :
    showNext d s taskId = some ((outgoing d e).foldl (showNextStep d) s) ∧
      ∀ j, ((outgoing d e).foldl (showNextStep d) s).vis j =
        (s.vis j || (outgoing d e).any (fun c => gNext d c j)) := by
  constructor
  · unfold showNext
    rw [h]
  · intro j
    exact vis_foldl_or _ _ (fun s c j => showNextStep_vis d s c j) _ _ _

/-! ## Further small lemmas about the operations -/

/-- show on an id without graphics is a silent no-op. -/
theorem showEl_unreg {d : Diagram} {id : String} (s : St)
    (h : registered d id = false) : showEl d s id = s := by
  unfold showEl
  simp [h]

theorem bpmnIsA_Process_iff (t : BpmnT) :
    bpmnIsA t BpmnT.Process = true ↔ t = BpmnT.Process := by
  cases t <;> simp [bpmnIsA]

theorem bpmnIsA_StartEvent_iff (t : BpmnT) :
    bpmnIsA t BpmnT.StartEvent = true ↔ t = BpmnT.StartEvent := by
  cases t <;> simp [bpmnIsA]

/-- any is stable under permutation of the list. -/
theorem perm_any {l l' : List String} (h : l.Perm l') (f : String → Bool) :
    l.any f = l'.any f := by
  cases ha : l.any f with
  | true =>
      rw [List.any_eq_true] at ha
      obtain ⟨x, hx, hfx⟩ := ha
      symm
      rw [List.any_eq_true]
      exact ⟨x, h.mem_iff.mp hx, hfx⟩
  | false =>
      rw [List.any_eq_false] at ha
      symm
      rw [List.any_eq_false]
      intro x hx
      exact ha x (h.mem_iff.mpr hx)

/-! ## Walk sequences

The navigation API a host drives: start, showElements and showNext in
any order.  A run is modelled both as an executable interpreter over an
operation list (none when an operation raises) and as an inductive
reachability relation used to state the frontier invariant. -/

inductive WalkOp where
  | opStart
  | opShowElements (ids : List String)
  | opShowNext (id : String)
deriving DecidableEq, Repr

def runOp (d : Diagram) (s : St) : WalkOp → Option St
  | .opStart => some (start d s)
  | .opShowElements ids => some (showElements d s ids)
  | .opShowNext id => showNext d s id

def runOps (d : Diagram) (s : St) : List WalkOp → Option St
  | [] => some s
  | op :: ops =>
      match runOp d s op with
      | some s' => runOps d s' ops
      | none => none

/-- Reachability through walker operations honouring the operations'
contracts: showElements receives element (shape) ids only, and showNext
is called on an already-revealed id. -/
inductive Walk (d : Diagram) : St → St → Prop where
  | init (s : St) : Walk d s s
  | stepStart {s s' : St} : Walk d s s' → Walk d s (start d s')
  | stepShowElements {s s' : St} (ids : List String)
      (hids : ∀ id ∈ ids, ∀ c ∈ d.connections, c.id ≠ id) :
      Walk d s s' → Walk d s (showElements d s' ids)
  | stepShowNext {s s' s'' : St} (id : String) (hvis : s'.vis id = true)
      (hstep : showNext d s' id = some s'') :
      Walk d s s' → Walk d s s''

/-! ## A concrete diagram for witnesses and counterexamples

A root process containing a start event, a task chained to a gateway, a
call activity, an end event and a sub-process with a nested start
event. -/

def elProc : Element := ⟨"p1", BpmnT.Process, BpmnT.Process, none, 0, 0, 800, 600⟩

def elA : Element := ⟨"a", BpmnT.StartEvent, BpmnT.StartEvent, some BpmnT.Process, 10, 20, 36, 36⟩

def elSub : Element := ⟨"sub", BpmnT.SubProcess, BpmnT.SubProcess, some BpmnT.Process, 300, 300, 200, 150⟩

def elA2 : Element := ⟨"a2", BpmnT.StartEvent, BpmnT.StartEvent, some BpmnT.SubProcess, 320, 320, 36, 36⟩

def elB : Element := ⟨"b", BpmnT.Task, BpmnT.Task, some BpmnT.Process, 100, 40, 100, 80⟩

def elB2 : Element := ⟨"b2", BpmnT.CallActivity, BpmnT.CallActivity, some BpmnT.Process, 100, 200, 100, 80⟩

def elG : Element := ⟨"g", BpmnT.ExclusiveGateway, BpmnT.ExclusiveGateway, some BpmnT.Process, 250, 40, 50, 50⟩

def elE : Element := ⟨"e", BpmnT.EndEvent, BpmnT.EndEvent, some BpmnT.Process, 400, 40, 36, 36⟩

def connAB : Connection := ⟨"ab", "a", "b"⟩

def connBG : Connection := ⟨"bg", "b", "g"⟩

def connBB2 : Connection := ⟨"bb2", "b", "b2"⟩

def connGE : Connection := ⟨"ge", "g", "e"⟩

def D0 : Diagram :=
  ⟨[elProc, elA, elSub, elA2, elB, elB2, elG, elE],
    [connAB, connBG, connBB2, connGE]⟩

/-- A state with every graphics node displayed (a freshly imported
diagram). -/
def S0 : St := ⟨fun _ => true, [], []⟩

/-- A state with every graphics node hidden. -/
def Shidden : St := ⟨fun _ => false, [], []⟩

/-- A state where only the task b is displayed. -/
def SVb : St := ⟨fun j => decide (j = "b"), [], []⟩

/-- A label shape over a task business object, as the engine adds for an
external label. -/
def lblEl : Element := ⟨"lbl", BpmnT.label, BpmnT.Task, some BpmnT.Process, 0, 0, 90, 20⟩

/-- A sample icon child of a graphics node. -/
def sampleIcon : Icon := ⟨"resources/bg.jpg", 0, 0, 1, 1⟩

/-! ## Claim C10 -/

/-- C10: for every added shape whose type tag is label, the shape.added
handler returns immediately and attaches no iconography: the graphics
node is unchanged regardless of the BPMN type of the label's business
object. -/
theorem C10_label_shape_untouched (e : Element) (g : List Icon)
    (h : e.type = BpmnT.label) : shapeAdded e g = g := by
  unfold shapeAdded
  rw [h]
  simp

/-- Witness for C10: a label over a task business object keeps its
graphics children. -/
theorem C10_label_shape_untouched_witness :
    shapeAdded lblEl [sampleIcon] = [sampleIcon] :=
  C10_label_shape_untouched lblEl [sampleIcon] rfl

/-! ## Claim C8 -/

/-- C8: show is idempotent; calling it twice yields the same visible set
as calling it once, and a show on an already-visible element is a
no-op. -/
theorem C8_show_idempotent (d : Diagram) (s : St) (id : String) :
    showEl d (showEl d s id) id = showEl d s id ∧
    (s.vis id = true → showEl d s id = s) := by
  constructor
  · unfold showEl
    cases hreg : registered d id with
    | false => simp [hreg]
    | true =>
        simp only [hreg, if_true]
        congr 1
        funext j
        unfold vset
        by_cases hj : j = id <;> simp [hj]
  · intro h
    unfold showEl
    cases hreg : registered d id with
    | false => simp [hreg]
    | true =>
        simp only [hreg, if_true]
        cases s with
        | mk v l cm =>
            congr 1
            funext j
            unfold vset
            by_cases hj : j = id
            · subst hj
              rw [if_pos rfl]
              exact h.symm
            · simp [hj]

/-- Witness for C8: showing the already-visible start event of the
sample diagram changes nothing. -/
theorem C8_show_idempotent_witness : showEl D0 S0 "a" = S0 :=
  (C8_show_idempotent D0 S0 "a").2 rfl

/-! ## Claim C6 -/

/-- C6: scrollTo on a registered element logs and then performs exactly
a zoom reset followed by a scroll by dx = -x + 75 and dy = -y + 75; on
an unresolved id it performs no camera mutation at all and does not
throw. -/
theorem C6_scrollTo_camera (d : Diagram) (s : St) (id : String) :
    (∀ el, getElement d id = some el →
      scrollTo d s id =
        { s with
          log := s.log ++ [scrollMsg id (-el.x + 75) (-el.y + 75)],
          cam := s.cam ++ [CamOp.reset, CamOp.scroll (-el.x + 75) (-el.y + 75)] }) ∧
    (getElement d id = none → scrollTo d s id = s) := by
  constructor
  · intro el h
    unfold scrollTo
    rw [h]
  · intro h
    unfold scrollTo
    rw [h]

/-- Witness for C6: scrolling to the start event of the sample diagram
resets and scrolls; scrolling to a missing id leaves the state alone. -/
theorem C6_scrollTo_camera_witness :
    scrollTo D0 S0 "a" =
      { S0 with
        log := S0.log ++ [scrollMsg "a" (-elA.x + 75) (-elA.y + 75)],
        cam := S0.cam ++ [CamOp.reset, CamOp.scroll (-elA.x + 75) (-elA.y + 75)] } ∧
    scrollTo D0 S0 "ghost" = S0 :=
  ⟨(C6_scrollTo_camera D0 S0 "a").1 elA (by decide),
    (C6_scrollTo_camera D0 S0 "ghost").2 (by decide)⟩

/-! ## Claim C4 -/

/-- C4 counterexample: the claim says neither show nor hide throws on an
id without a graphical representation, but hide dereferences the failed
lookup: on the sample diagram, hiding an unknown id raises. -/
theorem C4_hide_throws_counterexample :
    registered D0 "ghost" = false ∧ hide D0 S0 "ghost" = none :=
  ⟨by decide, rfl⟩

/-- C4 amended: show on an id without graphics is a silent no-op (it
neither throws nor logs), while hide on such an id throws; hide throws
exactly on unregistered ids. -/
theorem C4_show_hide_missing (d : Diagram) (s : St) (id : String) :
    (hide d s id = none ↔ registered d id = false) ∧
    (registered d id = false → showEl d s id = s) ∧
    (showEl d s id).log = s.log := by
  refine ⟨?_, fun h => showEl_unreg s h, showEl_log d s id⟩
  unfold hide
  cases hreg : registered d id with
  | false => simp
  | true => simp

/-- Witness for C4: on the sample diagram, show of an unknown id leaves
the state untouched. -/
theorem C4_show_hide_missing_witness :
    registered D0 "ghost" = false ∧ showEl D0 S0 "ghost" = S0 :=
  ⟨by decide, (C4_show_hide_missing D0 S0 "ghost").2.1 (by decide)⟩

/-! ## Claim C5 -/

/-- C5 counterexample: the claim says an unknown id passed to a
navigation function is non-fatal, but showNext reads outgoing from the
failed lookup: on the sample diagram, showNext of an unknown id
raises. -/
theorem C5_showNext_throws_counterexample :
    registered D0 "ghost" = false ∧ showNext D0 S0 "ghost" = none :=
  ⟨by decide, rfl⟩

/-- C5 amended: in showElements an unknown id is logged and skipped and
the walk continues over the remaining ids, while showNext with an
unknown id throws. -/
theorem C5_unknown_id (d : Diagram) (s : St) (ids : List String) (id : String)
    (rest : List String) (h1 : getElement d id = none) (h2 : getConnection d id = none) :
    showElementsStep d ids s id = { s with log := s.log ++ [notFoundMsg id] } ∧
    showElements d s (id :: rest) =
      rest.foldl (showElementsStep d (id :: rest))
        { s with log := s.log ++ [notFoundMsg id] } ∧
    showNext d s id = none := by
  have hreg : registered d id = false := by
    unfold registered
    rw [h1, h2]
    rfl
  have hstep : ∀ l : List String, showElementsStep d l s id = { s with log := s.log ++ [notFoundMsg id] } := by
    intro l
    unfold showElementsStep
    rw [showEl_unreg s hreg, h1, h2]
  refine ⟨hstep ids, ?_, ?_⟩
  · unfold showElements
    rw [List.foldl_cons, hstep (id :: rest)]
  · unfold showNext
    rw [h1, h2]

/-- Witness for C5: on the sample diagram an unknown id in the middle of
a showElements walk only adds a log line and the remaining ids are still
processed. -/
theorem C5_unknown_id_witness :
    showElementsStep D0 ["ghost", "a"] S0 "ghost" =
      { S0 with log := S0.log ++ [notFoundMsg "ghost"] } ∧
    showElements D0 S0 ["ghost", "a"] =
      ["a"].foldl (showElementsStep D0 ["ghost", "a"])
        { S0 with log := S0.log ++ [notFoundMsg "ghost"] } ∧
    showNext D0 S0 "ghost" = none :=
  C5_unknown_id D0 S0 ["ghost", "a"] "ghost" ["a"] (by decide) (by decide)

/-! ## Claims C2 and C7 -/

theorem contains_eq_decide_mem (l : List String) (a : String) :
    l.contains a = decide (a ∈ l) := by
  simp

theorem mem_incoming {d : Diagram} {e : Element} {c : Connection} :
    c ∈ incoming d e ↔ c ∈ d.connections ∧ c.target = e.id := by
  unfold incoming
  rw [List.mem_filter]
  simp

theorem mem_outgoing {d : Diagram} {e : Element} {c : Connection} :
    c ∈ outgoing d e ↔ c ∈ d.connections ∧ c.source = e.id := by
  unfold outgoing
  rw [List.mem_filter]
  simp

/-- C2: for a connection of the diagram whose own id is not among the
passed ids and which starts hidden, showElements(ids) reveals it exactly
when both its source id and its target id occur in the passed ids; with
an endpoint outside the id set it stays hidden. -/
theorem C2_connection_visible_iff (d : Diagram) (s : St) (ids : List String)
    (c : Connection) (hwf : WF d) (hc : c ∈ d.connections) (hnot : c.id ∉ ids)
    (hhid : s.vis c.id = false) :
    ((showElements d s ids).vis c.id = true ↔ (c.source ∈ ids ∧ c.target ∈ ids)) := by
  rw [showElements_vis, hhid, Bool.false_or, List.any_eq_true]
  constructor
  · rintro ⟨id, hid, hg⟩
    unfold gOut at hg
    simp only [Bool.or_eq_true] at hg
    rcases hg with hL | hR
    · simp only [Bool.and_eq_true] at hL
      obtain ⟨hdec, -⟩ := hL
      have : c.id ∈ ids := by
        rw [of_decide_eq_true hdec]
        exact hid
      exact absurd this hnot
    · cases hge : getElement d id with
      | none =>
          rw [hge] at hR
          cases hR
      | some e =>
          rw [hge, List.any_eq_true] at hR
          obtain ⟨c2, hc2, hmix⟩ := hR
          simp only [Bool.and_eq_true] at hmix
          obtain ⟨hcont, hdec, -⟩ := hmix
          obtain ⟨hc2conn, hc2tgt⟩ := mem_incoming.mp hc2
          have hcc : c = c2 := hwf.conn_inj hc hc2conn (of_decide_eq_true hdec)
          constructor
          · rw [hcc]
            rw [contains_eq_decide_mem] at hcont
            exact of_decide_eq_true hcont
          · rw [hcc, hc2tgt, (getElement_some hge).2]
            exact hid
  · rintro ⟨hsrc, htgt⟩
    obtain ⟨te, hte, hteid⟩ := hwf.2.1 c hc
    refine ⟨c.target, htgt, ?_⟩
    unfold gOut
    simp only [Bool.or_eq_true]
    right
    have hgete : getElement d c.target = some te := by
      rw [← hteid]
      exact hwf.getElement_of_mem hte
    rw [hgete, List.any_eq_true]
    refine ⟨c, mem_incoming.mpr ⟨hc, hteid.symm⟩, ?_⟩
    simp only [Bool.and_eq_true]
    refine ⟨?_, by simp, registered_conn hc⟩
    rw [contains_eq_decide_mem]
    exact decide_eq_true hsrc

/-- Witness for C2: revealing the start event and the task of the sample
diagram also reveals the connection between them. -/
theorem C2_connection_visible_iff_witness :
    (showElements D0 Shidden ["a", "b"]).vis "ab" = true :=
  (C2_connection_visible_iff D0 Shidden ["a", "b"] connAB (by decide) (by decide)
    (by decide) rfl).mpr ⟨by decide, by decide⟩

/-- C7: the final visible set of showElements does not depend on the
order of the supplied ids; any permutation yields the same display flag
at every id. -/
theorem C7_showElements_perm (d : Diagram) (s : St) (ids ids' : List String)
    (hp : ids.Perm ids') (j : String) :
    (showElements d s ids).vis j = (showElements d s ids').vis j := by
  rw [showElements_vis, showElements_vis]
  have hco : ∀ x, ids.contains x = ids'.contains x := by
    intro x
    rw [contains_eq_decide_mem, contains_eq_decide_mem]
    exact decide_eq_decide.mpr hp.mem_iff
  have hg : ∀ id, gOut d ids id j = gOut d ids' id j := by
    intro id
    unfold gOut
    cases getElement d id with
    | none => rfl
    | some e =>
        have harg :
            (fun c : Connection =>
              ids.contains c.source && (decide (j = c.id) && registered d c.id)) =
            (fun c : Connection =>
              ids'.contains c.source && (decide (j = c.id) && registered d c.id)) := by
          funext c
          rw [hco]
        rw [harg]
  have hfun : (fun id => gOut d ids id j) = (fun id => gOut d ids' id j) :=
    funext hg
  rw [hfun, perm_any hp]

/-- Witness for C7: the two orders of revealing the start event and the
task leave the connection between them in the same state. -/
theorem C7_showElements_perm_witness :
    (showElements D0 Shidden ["a", "b"]).vis "ab" =
      (showElements D0 Shidden ["b", "a"]).vis "ab" :=
  C7_showElements_perm D0 Shidden ["a", "b"] ["b", "a"] (List.Perm.swap "b" "a" []) "ab"

/-! ## Claim C1 -/

/-- C1 counterexample: hideAll() skips every element the classifier
types as bpmn:Process, so on an initially displayed diagram the root
process element is still visible after hideAll(); start(), although it
is not a start event: visibility after the sequence is not exactly the
set of top-level start events. -/
theorem C1_counterexample :
    ¬ (∀ e ∈ D0.elements,
        ((start D0 (hideAll D0 S0)).vis e.id = true ↔
          (bpmnIsA e.bo BpmnT.StartEvent = true ∧
            e.parentType = some BpmnT.Process))) := by
  decide

/-- C1 amended: after hideAll(); start(), among the non-Process elements
exactly the start events whose direct parent is the root process are
visible (start events nested in sub-processes are not), every connection
is hidden, and elements of type bpmn:Process keep their prior
visibility (hideAll never touches them). -/
theorem C1_start_reveals (d : Diagram) (s : St) (hwf : WF d) :
    (∀ e ∈ d.elements, bpmnIsA e.bo BpmnT.Process = false →
      (start d (hideAll d s)).vis e.id =
        (bpmnIsA e.bo BpmnT.StartEvent && decide (e.parentType = some BpmnT.Process))) ∧
    (∀ e ∈ d.elements, bpmnIsA e.bo BpmnT.Process = true →
      (start d (hideAll d s)).vis e.id = s.vis e.id) ∧
    (∀ c ∈ d.connections, (start d (hideAll d s)).vis c.id = false) := by
  have hSF_mem : ∀ e ∈ d.elements,
      (bpmnIsA e.bo BpmnT.StartEvent && decide (e.parentType = some BpmnT.Process)) = true →
      (startFilter d).any (fun x => decide (e.id = x.id) && registered d x.id) = true := by
    intro e he hcond
    rw [List.any_eq_true]
    refine ⟨e, ?_, by simp [registered_elem he]⟩
    unfold startFilter
    rw [List.mem_filter]
    exact ⟨he, hcond⟩
  have hSF_not : ∀ e ∈ d.elements,
      (bpmnIsA e.bo BpmnT.StartEvent && decide (e.parentType = some BpmnT.Process)) = false →
      (startFilter d).any (fun x => decide (e.id = x.id) && registered d x.id) = false := by
    intro e he hcond
    rw [List.any_eq_false]
    intro x hx hcontr
    unfold startFilter at hx
    rw [List.mem_filter] at hx
    simp only [Bool.and_eq_true] at hcontr
    obtain ⟨hdec, -⟩ := hcontr
    have hxe : x = e := hwf.elem_inj hx.1 he (of_decide_eq_true hdec).symm
    have hx2 := hx.2
    rw [hxe, hcond] at hx2
    cases hx2
  have hSF_conn : ∀ c ∈ d.connections,
      (startFilter d).any (fun x => decide (c.id = x.id) && registered d x.id) = false := by
    intro c hc
    rw [List.any_eq_false]
    intro x hx hcontr
    unfold startFilter at hx
    rw [List.mem_filter] at hx
    simp only [Bool.and_eq_true] at hcontr
    obtain ⟨hdec, -⟩ := hcontr
    exact hwf.elem_conn_ne hx.1 hc (of_decide_eq_true hdec).symm
  have hA_nonproc : ∀ e ∈ d.elements, bpmnIsA e.bo BpmnT.Process = false →
      (d.elements.filter (fun x => !(bpmnIsA x.bo BpmnT.Process))).all
        (fun x => !(decide (e.id = x.id))) = false := by
    intro e he hproc
    rw [List.all_eq_false]
    refine ⟨e, ?_, by simp⟩
    rw [List.mem_filter]
    exact ⟨he, by simp [hproc]⟩
  have hA_proc : ∀ e ∈ d.elements, bpmnIsA e.bo BpmnT.Process = true →
      (d.elements.filter (fun x => !(bpmnIsA x.bo BpmnT.Process))).all
        (fun x => !(decide (e.id = x.id))) = true := by
    intro e he hproc
    rw [List.all_eq_true]
    intro x hx
    rw [List.mem_filter] at hx
    by_cases hxe : e.id = x.id
    · have heq : x = e := hwf.elem_inj hx.1 he hxe.symm
      have hx2 := hx.2
      rw [heq, hproc] at hx2
      cases hx2
    · simp [hxe]
  have hB_elem : ∀ e ∈ d.elements,
      d.connections.all (fun c => !(decide (e.id = c.id))) = true := by
    intro e he
    rw [List.all_eq_true]
    intro c hc
    simp [hwf.elem_conn_ne he hc]
  have hB_conn : ∀ c ∈ d.connections,
      d.connections.all (fun x => !(decide (c.id = x.id))) = false := by
    intro c hc
    rw [List.all_eq_false]
    exact ⟨c, hc, by simp⟩
  refine ⟨?_, ?_, ?_⟩
  · intro e he hproc
    rw [start_vis d (hideAll d s) e.id, hideAll_vis d (hideAll d s) e.id,
      hideAll_vis d s e.id]
    cases hcond : (bpmnIsA e.bo BpmnT.StartEvent && decide (e.parentType = some BpmnT.Process)) with
    | true => rw [hSF_mem e he hcond]; simp
    | false => rw [hSF_not e he hcond, hA_nonproc e he hproc]; simp
  · intro e he hproc
    have hbo : e.bo = BpmnT.Process := (bpmnIsA_Process_iff e.bo).mp hproc
    have hcond : (bpmnIsA e.bo BpmnT.StartEvent &&
        decide (e.parentType = some BpmnT.Process)) = false := by
      rw [hbo]
      simp [bpmnIsA]
    rw [start_vis d (hideAll d s) e.id, hideAll_vis d (hideAll d s) e.id,
      hideAll_vis d s e.id, hSF_not e he hcond, hA_proc e he hproc, hB_elem e he]
    simp
  · intro c hc
    rw [start_vis d (hideAll d s) c.id, hideAll_vis d (hideAll d s) c.id,
      hideAll_vis d s c.id, hSF_conn c hc, hB_conn c hc]
    simp

/-- Witness for C1: on the sample diagram, after hideAll(); start() the
top-level start event is visible, the nested start event and the
connections are hidden, and the root process keeps its prior state. -/
theorem C1_start_reveals_witness :
    (start D0 (hideAll D0 S0)).vis "a" = true ∧
    (start D0 (hideAll D0 S0)).vis "a2" = false ∧
    (start D0 (hideAll D0 S0)).vis "p1" = S0.vis "p1" ∧
    (start D0 (hideAll D0 S0)).vis "ab" = false := by
  have h := C1_start_reveals D0 S0 (by decide)
  refine ⟨?_, ?_, ?_, ?_⟩
  · exact (h.1 elA (by decide) (by decide)).trans (by decide)
  · exact (h.1 elA2 (by decide) (by decide)).trans (by decide)
  · exact h.2.1 elProc (by decide) (by decide)
  · exact h.2.2 connAB (by decide)

/-! ## Claim C3 -/

/-- C3: for an already-revealed task id resolving to an element, showNext
succeeds and reveals exactly the connection/target pairs among its
outgoing connections whose target classifies as bpmn:Gateway or
bpmn:EndEvent; outgoing connections to other targets (plain tasks) and
those targets keep their prior display state, as does every connection
not outgoing from the task. -/
theorem C3_showNext_gateway_end (d : Diagram) (s : St) (t : String) (e : Element)
    (hwf : WF d) (he : getElement d t = some e) (hvis : s.vis t = true) :
    showNext d s t = some ((outgoing d e).foldl (showNextStep d) s) ∧
    (∀ c ∈ d.connections, c.source = e.id →
      ∀ te, getElement d c.target = some te →
        ((bpmnIsA te.bo BpmnT.Gateway || bpmnIsA te.bo BpmnT.EndEvent) = true →
          ((outgoing d e).foldl (showNextStep d) s).vis c.id = true ∧
          ((outgoing d e).foldl (showNextStep d) s).vis te.id = true) ∧
        ((bpmnIsA te.bo BpmnT.Gateway || bpmnIsA te.bo BpmnT.EndEvent) = false →
          ((outgoing d e).foldl (showNextStep d) s).vis c.id = s.vis c.id ∧
          ((outgoing d e).foldl (showNextStep d) s).vis te.id = s.vis te.id)) ∧
    (∀ c ∈ d.connections, c.source ≠ e.id →
      ((outgoing d e).foldl (showNextStep d) s).vis c.id = s.vis c.id) := by
  obtain ⟨heq, hchar⟩ := showNext_elem_vis s he
  refine ⟨heq, ?_, ?_⟩
  · intro c hc hsrc te hte
    constructor
    · intro hkind
      constructor
      · have hany : (outgoing d e).any (fun x => gNext d x c.id) = true := by
          rw [List.any_eq_true]
          refine ⟨c, mem_outgoing.mpr ⟨hc, hsrc⟩, ?_⟩
          unfold gNext
          rw [hte]
          simp [hkind, registered_conn hc]
        rw [hchar c.id, hany]
        simp
      · have hany : (outgoing d e).any (fun x => gNext d x te.id) = true := by
          rw [List.any_eq_true]
          refine ⟨c, mem_outgoing.mpr ⟨hc, hsrc⟩, ?_⟩
          unfold gNext
          rw [hte]
          simp [hkind, registered_elem (getElement_some hte).1]
        rw [hchar te.id, hany]
        simp
    · intro hkind
      constructor
      · have hany : (outgoing d e).any (fun x => gNext d x c.id) = false := by
          rw [List.any_eq_false]
          intro c2 hc2 hcontr
          obtain ⟨hc2conn, hc2src⟩ := mem_outgoing.mp hc2
          unfold gNext at hcontr
          cases hte2 : getElement d c2.target with
          | none =>
              rw [hte2] at hcontr
              cases hcontr
          | some te2 =>
              rw [hte2] at hcontr
              simp only [Bool.and_eq_true, Bool.or_eq_true] at hcontr
              obtain ⟨hk2, hdisj⟩ := hcontr
              rcases hdisj with ⟨hdec, -⟩ | ⟨hdec, -⟩
              · have hcc : c = c2 := hwf.conn_inj hc hc2conn (of_decide_eq_true hdec)
                rw [← hcc] at hte2
                rw [hte] at hte2
                have hee : te = te2 := Option.some.inj hte2
                rw [← hee] at hk2
                rcases hk2 with hk2 | hk2 <;> simp [hk2] at hkind
              · exact hwf.elem_conn_ne (getElement_some hte2).1 hc
                  (of_decide_eq_true hdec).symm
        rw [hchar c.id, hany]
        simp
      · have hany : (outgoing d e).any (fun x => gNext d x te.id) = false := by
          rw [List.any_eq_false]
          intro c2 hc2 hcontr
          obtain ⟨hc2conn, hc2src⟩ := mem_outgoing.mp hc2
          unfold gNext at hcontr
          cases hte2 : getElement d c2.target with
          | none =>
              rw [hte2] at hcontr
              cases hcontr
          | some te2 =>
              rw [hte2] at hcontr
              simp only [Bool.and_eq_true, Bool.or_eq_true] at hcontr
              obtain ⟨hk2, hdisj⟩ := hcontr
              rcases hdisj with ⟨hdec, -⟩ | ⟨hdec, -⟩
              · exact hwf.elem_conn_ne (getElement_some hte).1 hc2conn
                  (of_decide_eq_true hdec)
              · have hee : te = te2 :=
                  hwf.elem_inj (getElement_some hte).1 (getElement_some hte2).1
                    (of_decide_eq_true hdec)
                rw [← hee] at hk2
                rcases hk2 with hk2 | hk2 <;> simp [hk2] at hkind
        rw [hchar te.id, hany]
        simp
  · intro c hc hne
    have hany : (outgoing d e).any (fun x => gNext d x c.id) = false := by
      rw [List.any_eq_false]
      intro c2 hc2 hcontr
      obtain ⟨hc2conn, hc2src⟩ := mem_outgoing.mp hc2
      unfold gNext at hcontr
      cases hte2 : getElement d c2.target with
      | none =>
          rw [hte2] at hcontr
          cases hcontr
      | some te2 =>
          rw [hte2] at hcontr
          simp only [Bool.and_eq_true, Bool.or_eq_true] at hcontr
          obtain ⟨-, hdisj⟩ := hcontr
          rcases hdisj with ⟨hdec, -⟩ | ⟨hdec, -⟩
          · have hcc : c = c2 := hwf.conn_inj hc hc2conn (of_decide_eq_true hdec)
            rw [hcc] at hne
            exact hne hc2src
          · exact hwf.elem_conn_ne (getElement_some hte2).1 hc
              (of_decide_eq_true hdec).symm
    rw [hchar c.id, hany]
    simp

/-- Witness for C3: on the sample diagram with only the task b revealed,
showNext on b reveals the outgoing connection to the gateway and the
gateway itself, while the connection to the call activity, the call
activity and the unrelated incoming connection keep their state. -/
theorem C3_showNext_gateway_end_witness :
    showNext D0 SVb "b" = some ((outgoing D0 elB).foldl (showNextStep D0) SVb) ∧
    ((outgoing D0 elB).foldl (showNextStep D0) SVb).vis "bg" = true ∧
    ((outgoing D0 elB).foldl (showNextStep D0) SVb).vis "g" = true ∧
    ((outgoing D0 elB).foldl (showNextStep D0) SVb).vis "bb2" = SVb.vis "bb2" ∧
    ((outgoing D0 elB).foldl (showNextStep D0) SVb).vis "b2" = SVb.vis "b2" ∧
    ((outgoing D0 elB).foldl (showNextStep D0) SVb).vis "ab" = SVb.vis "ab" := by
  have h := C3_showNext_gateway_end D0 SVb "b" elB (by decide) (by decide) (by decide)
  refine ⟨h.1, ?_, ?_, ?_, ?_, ?_⟩
  · exact ((h.2.1 connBG (by decide) (by decide) elG (by decide)).1 (by decide)).1
  · exact ((h.2.1 connBG (by decide) (by decide) elG (by decide)).1 (by decide)).2
  · exact ((h.2.1 connBB2 (by decide) (by decide) elB2 (by decide)).2 (by decide)).1
  · exact ((h.2.1 connBB2 (by decide) (by decide) elB2 (by decide)).2 (by decide)).2
  · exact h.2.2 connAB (by decide) (by decide)

/-! ## Claim C9 -/

/-- No entry of the start filter carries a connection id. -/
theorem startFilter_any_conn {d : Diagram} (hwf : WF d) {c : Connection}
    (hc : c ∈ d.connections) :
    (startFilter d).any (fun x => decide (c.id = x.id) && registered d x.id) = false := by
  rw [List.any_eq_false]
  intro x hx hcontr
  unfold startFilter at hx
  rw [List.mem_filter] at hx
  simp only [Bool.and_eq_true] at hcontr
  obtain ⟨hdec, -⟩ := hcontr
  exact hwf.elem_conn_ne hx.1 hc (of_decide_eq_true hdec).symm

/-- start() leaves every connection hidden: the hideAll it begins with
hides them and the start events it then shows never carry a connection
id. -/
theorem start_conn_hidden {d : Diagram} (hwf : WF d) (s : St) {c : Connection}
    (hc : c ∈ d.connections) : (start d s).vis c.id = false := by
  rw [start_vis, hideAll_conn_hidden s hc, startFilter_any_conn hwf hc]
  rfl

/-- C9 counterexample: the claim quantifies over every operation
sequence, but showNext does not require its argument to be visible: from
the reset state, showNext on the hidden task b reveals the outgoing
connection bg while its source b stays hidden. -/
theorem C9_counterexample :
    (runOps D0 (hideAll D0 S0) [WalkOp.opShowNext "b"]).map
        (fun s => (s.vis "bg", s.vis "b")) = some (true, false) ∧
    connBG ∈ D0.connections ∧ connBG.source = "b" := by
  refine ⟨by decide, by decide, rfl⟩

/-- C9 amended: after any sequence of start, showElements and showNext
from the reset state in which showElements is given shape ids only (no
connection ids) and showNext is applied to an already-visible id, every
visible connection has a visible source element. -/
theorem C9_connection_source_invariant (d : Diagram) (s0 : St) (hwf : WF d)
    {s' : St} (hw : Walk d (hideAll d s0) s') :
    ∀ c ∈ d.connections, s'.vis c.id = true → s'.vis c.source = true := by
  induction hw with
  | init =>
      intro c hc hv
      rw [hideAll_conn_hidden s0 hc] at hv
      cases hv
  | stepStart hprev ih =>
      intro c hc hv
      rw [start_conn_hidden hwf _ hc] at hv
      cases hv
  | stepShowElements ids hids hprev ih =>
      intro c hc hv
      rw [showElements_vis] at hv
      simp only [Bool.or_eq_true] at hv
      rcases hv with hold | hnew
      · exact showElements_mono (ih c hc hold)
      · rw [List.any_eq_true] at hnew
        obtain ⟨id, hid, hg⟩ := hnew
        unfold gOut at hg
        simp only [Bool.or_eq_true] at hg
        rcases hg with hL | hR
        · simp only [Bool.and_eq_true] at hL
          obtain ⟨hdec, -⟩ := hL
          exact absurd (of_decide_eq_true hdec) (hids id hid c hc)
        · cases hge : getElement d id with
          | none =>
              rw [hge] at hR
              cases hR
          | some e =>
              rw [hge, List.any_eq_true] at hR
              obtain ⟨c2, hc2, hmix⟩ := hR
              simp only [Bool.and_eq_true] at hmix
              obtain ⟨hcont, hdec, -⟩ := hmix
              have hcc : c = c2 :=
                hwf.conn_inj hc (mem_incoming.mp hc2).1 (of_decide_eq_true hdec)
              have hsrcmem : c.source ∈ ids := by
                rw [hcc]
                rw [contains_eq_decide_mem] at hcont
                exact of_decide_eq_true hcont
              rw [showElements_vis]
              simp only [Bool.or_eq_true]
              right
              rw [List.any_eq_true]
              refine ⟨c.source, hsrcmem, ?_⟩
              unfold gOut
              simp only [Bool.or_eq_true]
              left
              simp only [Bool.and_eq_true]
              refine ⟨by simp, ?_⟩
              obtain ⟨es, hes, hesid⟩ := hwf.2.2 c hc
              rw [← hesid]
              exact registered_elem hes
  | stepShowNext id hvis hstep hprev ih =>
      intro c hc hv
      cases hge : getElement d id with
      | some e =>
          obtain ⟨heq, hchar⟩ := showNext_elem_vis _ hge
          rw [heq] at hstep
          have hfold := Option.some.inj hstep
          rw [← hfold] at hv ⊢
          rw [hchar c.id] at hv
          simp only [Bool.or_eq_true] at hv
          rcases hv with hold | hnew
          · have hs := ih c hc hold
            rw [hchar c.source, hs]
            simp
          · rw [List.any_eq_true] at hnew
            obtain ⟨c2, hc2, hg⟩ := hnew
            unfold gNext at hg
            cases hte2 : getElement d c2.target with
            | none =>
                rw [hte2] at hg
                cases hg
            | some te2 =>
                rw [hte2] at hg
                simp only [Bool.and_eq_true, Bool.or_eq_true] at hg
                obtain ⟨-, hdisj⟩ := hg
                rcases hdisj with ⟨hdec, -⟩ | ⟨hdec, -⟩
                · have hcc : c = c2 :=
                    hwf.conn_inj hc (mem_outgoing.mp hc2).1 (of_decide_eq_true hdec)
                  have hsrc : c.source = id := by
                    rw [hcc, (mem_outgoing.mp hc2).2, (getElement_some hge).2]
                  rw [hchar c.source, hsrc, hvis]
                  simp
                · exact absurd (of_decide_eq_true hdec).symm
                    (hwf.elem_conn_ne (getElement_some hte2).1 hc)
      | none =>
          unfold showNext at hstep
          rw [hge] at hstep
          cases hgc : getConnection d id with
          | some c0 =>
              rw [hgc] at hstep
              have := Option.some.inj hstep
              rw [← this] at hv ⊢
              exact ih c hc hv
          | none =>
              rw [hgc] at hstep
              cases hstep

/-- Witness for C9: a contract-respecting run (start, then showElements
on the start event and the task) reveals the connection between them,
and the invariant yields the visibility of its source. -/
theorem C9_connection_source_invariant_witness :
    (showElements D0 (start D0 (hideAll D0 S0)) ["a", "b"]).vis "a" = true := by
  have hw : Walk D0 (hideAll D0 S0)
      (showElements D0 (start D0 (hideAll D0 S0)) ["a", "b"]) :=
    Walk.stepShowElements ["a", "b"] (by decide)
      (Walk.stepStart (Walk.init (hideAll D0 S0)))
  exact C9_connection_source_invariant D0 S0 (by decide) hw connAB (by decide) (by decide)
